import Mathlib

/-!
# avahi: static hosts loader and announcement engine

A shallow embedding of `avahi-daemon/static-hosts.c` (the hosts-file loader and the
entry-group callback) and of the announcement engine declared in
`avahi-core/announce.h`.

Conventions of the embedding:

* a C string, and the content of a file, is a `List Char`; every `Char` stands for one
  byte (`char`) and the terminating NUL of a C string is implicit (the end of the list);
* a pointer that may be `NULL` is an `Option`;
* the process-wide list `hosts` and the log are passed explicitly;
* `unsigned int` arithmetic is `Nat` arithmetic modulo `2 ^ 32`.
-/

namespace Avahi

/-! ## C library functions used by the loader -/

/-- The C string held by a buffer: the bytes in front of the first NUL. -/
def cstr (buf : List Char) : List Char :=
  buf.takeWhile (fun c => c != '\x00')

/-- `strspn(s, accept)`: length of the longest initial segment of `s` made only of
bytes of `accept`. -/
def strspn : List Char → List Char → Nat
  | [], _ => 0
  | c :: cs, accept => if accept.contains c then strspn cs accept + 1 else 0

/-- `strcspn(s, reject)`: length of the longest initial segment of `s` free of the
bytes of `reject`. -/
def strcspn : List Char → List Char → Nat
  | [], _ => 0
  | c :: cs, reject => if reject.contains c then 0 else strcspn cs reject + 1

/-- `avahi_strndup(s, n)`: a fresh copy of at most `n` bytes of the C string `s`
(allocation failure is not modelled). -/
def avahi_strndup (s : List Char) (n : Nat) : List Char :=
  s.take n

/-- A `FILE *` opened for reading: the bytes not yet read and the end-of-file flag. -/
structure FILE where
  data : List Char
  eof : Bool
deriving DecidableEq, Repr

/-- The read loop of `fgets`: at most `n` bytes are taken, reading stops after a newline;
the third component tells whether the end of the file was hit while reading. -/
def fgets_read : Nat → List Char → List Char × List Char × Bool
  | 0, cs => ([], cs, false)
  | _ + 1, [] => ([], [], true)
  | n + 1, c :: cs =>
    if c = '\n' then ([c], cs, false)
    else
      let r := fgets_read n cs
      (c :: r.1, r.2.1, r.2.2)

/-- `fgets(buf, size, f)`: reads at most `size - 1` bytes; `none` is the `NULL` returned
when the end of the file is met before any byte was read. -/
def fgets (size : Nat) (f : FILE) : Option (List Char) × FILE :=
  let r := fgets_read (size - 1) f.data
  let f' : FILE := { data := r.2.1, eof := f.eof || r.2.2 }
  if r.1 = [] then (none, f') else (some r.1, f')

/-- `feof(f)`. -/
def feof (f : FILE) : Bool := f.eof

/-! ## Data model of static-hosts.c -/

/-- `struct StaticHost`; `group` is the `AvahiSEntryGroup *` (a handle), `NULL` is `none`. -/
structure StaticHost where
  group : Option Nat
  host : Option (List Char)
  ip : Option (List Char)
deriving DecidableEq, Repr

/-- The messages static-hosts.c hands to `avahi_log_error` and `avahi_log_notice`. -/
inductive LogMsg where
  | open_failed (errno : Nat)
  | unexpected_eol (filename : String) (line : Nat)
  | junk (filename : String) (line : Nat)
  | host_conflict (host : Option (List Char))
  | host_established (host : Option (List Char))
  | host_failed (host : Option (List Char)) (errno : Int)
deriving DecidableEq, Repr

/-- `static_host_new`: a node with all three fields `NULL`, prepended to the global
list `hosts`; the node returned to the caller is the new head of the list. -/
def static_host_new (hosts : List StaticHost) : List StaticHost :=
  { group := none, host := none, ip := none } :: hosts

/-- The assignments `h->host = host; h->ip = ip;` on the node `static_host_new`
returned, which is the head of `hosts`. -/
def set_host_ip (hosts : List StaticHost) (host ip : List Char) : List StaticHost :=
  match hosts with
  | [] => []
  | h :: t => { h with host := some host, ip := some ip } :: t

/-- The local variables of `static_hosts_load` that live across loop iterations,
together with the global list `hosts` and the log. -/
structure LoadState where
  f : FILE
  line : Nat
  hosts : List StaticHost
  log : List LogMsg
deriving DecidableEq, Repr

/-- How an iteration of the `while` loop ends: `next` goes back to the loop test (the end
of the body, or `continue`), `stop` leaves the loop (`break`). -/
inductive Flow where
  | next
  | stop
deriving DecidableEq, Repr

/-- One iteration of the `while (!feof(f))` loop of `static_hosts_load`, entered with
the loop test already passed. -/
def static_hosts_load_iter (filename : String) (st : LoadState) : Flow × LoadState :=
  match fgets 256 st.f with
  | (none, f') => (Flow.stop, { st with f := f' })
  | (some buf, f') =>
    let line := (st.line + 1) % 2 ^ 32
    let ln := cstr buf
    -- s = ln + strspn(ln, " \t");
    let s := ln.drop (strspn ln [' ', '\t'])
    -- s[strcspn(s, "#\r\n")] = 0;
    let s := s.take (strcspn s ['#', '\r', '\n'])
    -- if (*s == '#' || *s == 0) continue;
    if s.head? = some '#' ∨ s.head? = none then
      (Flow.next, { st with f := f', line := line })
    else
      let len := strcspn s [' ', '\t']
      let ip := avahi_strndup s len
      let s := s.drop len
      let s := s.drop (strspn s [' ', '\t'])
      let len := strcspn s [' ', '\t']
      let host := avahi_strndup s len
      -- if (*host == 0)
      if host.head? = none then
        (Flow.stop, { st with f := f', line := line,
                              log := st.log ++ [LogMsg.unexpected_eol filename line] })
      else
        -- s += strspn(s+len, " \t");
        let s := s.drop (strspn (s.drop len) [' ', '\t'])
        -- if (*(s+len) != 0)
        if (s.drop len).head? ≠ none then
          (Flow.stop, { st with f := f', line := line,
                                log := st.log ++ [LogMsg.junk filename line] })
        else
          (Flow.next, { st with f := f', line := line,
                                hosts := set_host_ip (static_host_new st.hosts) host ip })

/-- The `while (!feof(f))` loop of `static_hosts_load`; `fuel` bounds the number of
iterations and `none` means the bound was reached. -/
def static_hosts_load_loop (filename : String) : Nat → LoadState → Option LoadState
  | 0, _ => none
  | fuel + 1, st =>
    if feof st.f then some st
    else
      match static_hosts_load_iter filename st with
      | (Flow.stop, st') => some st'
      | (Flow.next, st') => static_hosts_load_loop filename fuel st'

/-- `ENOENT`. -/
def ENOENT : Nat := 2

/-- `static_hosts_load(in_chroot)`. The file system is the function `fopen`, which gives
the content of the file or the `errno` of the failure; `config_dir` is the value of the
build-time constant `AVAHI_CONFIG_DIR`. The result is the list `hosts` and the log. -/
def static_hosts_load (config_dir : String) (fopen : String → Except Nat (List Char))
    (in_chroot : Bool) (hosts : List StaticHost) (log : List LogMsg) :
    Option (List StaticHost × List LogMsg) :=
  let filename := if in_chroot then "/hosts" else config_dir ++ "/hosts"
  match fopen filename with
  | Except.error errno =>
    if errno ≠ ENOENT then some (hosts, log ++ [LogMsg.open_failed errno])
    else some (hosts, log)
  | Except.ok content =>
    let st : LoadState := { f := { data := content, eof := false }, line := 0,
                            hosts := hosts, log := log }
    (static_hosts_load_loop filename (content.length + 1) st).map
      (fun st' => (st'.hosts, st'.log))

/-! ## Vocabulary of the statements about the hosts file -/

/-- Space or tab: the bytes of the string `" \t"` the loader hands to `strspn`. -/
def blank (c : Char) : Bool := [' ', '\t'].contains c

/-- The bytes that end the useful part of a line: `'#'`, CR and LF, the bytes of the
string `"#\r\n"` the loader hands to `strcspn`. -/
def lineEnd (c : Char) : Bool := ['#', '\r', '\n'].contains c

/-- A line of the hosts file, a text file, in front of the remaining content `rest`.
The line is given with its newline when it has one. It holds no NUL byte, and it is
either bytes free of LF followed by one LF, or the non-empty last bytes of a file that
does not end in LF. -/
def FileLine (raw rest : List Char) : Prop :=
  '\x00' ∉ raw ∧
    ((∃ l, raw = l ++ ['\n'] ∧ '\n' ∉ l) ∨ (raw ≠ [] ∧ '\n' ∉ raw ∧ rest = []))

/-- A token of a hosts-file line: non-empty and free of space, tab, `'#'`, CR and LF. -/
def IsToken (t : List Char) : Prop :=
  t ≠ [] ∧ ∀ c ∈ t, blank c = false ∧ lineEnd c = false

/-- The content of a line: what stands after the leading spaces and tabs and before
the first `'#'`, CR or LF. -/
def lineContent (raw : List Char) : List Char :=
  (raw.dropWhile blank).takeWhile (fun c => !lineEnd c)

/-- The tokens of a text: its maximal runs of bytes other than space and tab. -/
def words (s : List Char) : List (List Char) :=
  (s.splitOnP blank).filter (fun t => t ≠ [])

/-- What remains of the content of a line after its second token: the content without
its first token, the blanks that follow it and the second token. -/
def afterSecondToken (s : List Char) : List Char :=
  ((s.dropWhile (fun c => !blank c)).dropWhile blank).dropWhile (fun c => !blank c)

/-- A blank line or a comment line: after its leading spaces and tabs the line is empty
or begins with `'#'`, CR or LF. -/
def blankOrComment (raw : List Char) : Bool :=
  match raw.dropWhile blank with
  | [] => true
  | c :: _ => lineEnd c

/-- The state in which `static_hosts_load` enters its loop on a file of content
`content`. -/
def initialState (content : List Char) (hosts : List StaticHost) (log : List LogMsg) :
    LoadState :=
  { f := { data := content, eof := false }, line := 0, hosts := hosts, log := log }

/-- A file system that holds the hosts file with the given content. -/
def hostsFile (content : List Char) : String → Except Nat (List Char) :=
  fun _ => Except.ok content

/-- A comment line of 274 bytes: `'#'`, 254 times `'x'`, then the text
`1.2.3.4 evil.local` and the newline. -/
def longCommentLine : List Char :=
  '#' :: (List.replicate 254 'x' ++ "1.2.3.4 evil.local\n".toList)

/-- A line of 257 bytes made of two tokens: `a`, 254 spaces, `b` and the newline. -/
def longTwoTokenLine : List Char :=
  'a' :: (List.replicate 254 ' ' ++ ['b', '\n'])

/-- A line with a third token after the host name. -/
def junkLine : List Char := "10.0.0.1 a.local b.local\n".toList

/-- The line is rejected: the loop is left, no host is added and one error is logged. -/
def Rejected (st : LoadState) (r : Flow × LoadState) : Prop :=
  r.1 = Flow.stop ∧ r.2.hosts = st.hosts ∧ ∃ m, r.2.log = st.log ++ [m]

/-- The line is accepted: the loop goes on, one host with the given `ip` and `host` and
no group is added, and nothing is logged. -/
def Accepted (st : LoadState) (r : Flow × LoadState) (ip host : List Char) : Prop :=
  r.1 = Flow.next ∧ r.2.hosts = StaticHost.mk none (some host) (some ip) :: st.hosts ∧
    r.2.log = st.log

/-! ## The entry-group callback of static-hosts.c -/

/-- `AvahiEntryGroupState`, the states `entry_group_callback` switches over. -/
inductive AvahiEntryGroupState where
  | AVAHI_ENTRY_GROUP_UNCOMMITED
  | AVAHI_ENTRY_GROUP_REGISTERING
  | AVAHI_ENTRY_GROUP_ESTABLISHED
  | AVAHI_ENTRY_GROUP_COLLISION
  | AVAHI_ENTRY_GROUP_FAILURE
deriving DecidableEq, Repr

open AvahiEntryGroupState

/-- `entry_group_callback(s, eg, state, userdata)`: `h` is the `StaticHost` passed as
`userdata` and `server_errno` the value of `avahi_server_errno(s)`. The function only
logs; the result is what it logs. -/
def entry_group_callback (server_errno : Int) (state : AvahiEntryGroupState)
    (h : StaticHost) : List LogMsg :=
  match state with
  | AVAHI_ENTRY_GROUP_COLLISION => [LogMsg.host_conflict h.host]
  | AVAHI_ENTRY_GROUP_ESTABLISHED => [LogMsg.host_established h.host]
  | AVAHI_ENTRY_GROUP_FAILURE => [LogMsg.host_failed h.host server_errno]
  | AVAHI_ENTRY_GROUP_UNCOMMITED => []
  | AVAHI_ENTRY_GROUP_REGISTERING => []

/-! ## The announcement engine declared in announce.h

The types come from announce.h. The functions are in announce.c, which is not among the
sources at hand: they are modelled from the specification of the engine. -/

/-- `AvahiAnnouncementState` (announce.h), in the declared order; the header comments
`AVAHI_WAITING` as "wait for other records in group". -/
inductive AvahiAnnouncementState where
  | AVAHI_PROBING
  | AVAHI_WAITING
  | AVAHI_ANNOUNCING
  | AVAHI_ESTABLISHED
deriving DecidableEq, Repr

open AvahiAnnouncementState

/-- The value of an enumerator of `AvahiAnnouncementState`. -/
def AvahiAnnouncementState.toNat : AvahiAnnouncementState → Nat
  | AVAHI_PROBING => 0
  | AVAHI_WAITING => 1
  | AVAHI_ANNOUNCING => 2
  | AVAHI_ESTABLISHED => 3

/-- `struct AvahiAnnouncement` (announce.h). `interface` and `entry` are handles;
`time_event` is the pending timer, given by its delay, and `none` when no timer is
pending. The server pointer and the list links are left out: the membership lists are
the lists that hold the records. -/
structure AvahiAnnouncement where
  interface : Nat
  entry : Nat
  time_event : Option Nat
  state : AvahiAnnouncementState
  n_iteration : Nat
  sec_delay : Nat
deriving DecidableEq, Repr

/-- Modelled from the spec: the protocol constants of the engine, which are defined in
announce.c; they are "a fixed protocol constant number of probes spaced by a fixed short
interval", "a short grace interval", "a fixed small number of repeats" and the minimum
and the "capped maximum" of the announcement delay. -/
structure AnnounceParams where
  n_probes : Nat
  probe_interval : Nat
  wait_interval : Nat
  n_announcements : Nat
  min_delay : Nat
  max_delay : Nat
deriving DecidableEq, Repr

/-- Modelled from the spec: the Entry of the data model, declared in server.h; `scope` is
the interface scope (`none` for any interface), `no_probe` the flag of an entry "not
requiring probing", `announcements` the per-entry membership list. -/
structure AvahiEntry where
  id : Nat
  scope : Option Nat
  no_probe : Bool
  announcements : List AvahiAnnouncement
deriving DecidableEq, Repr

/-- Modelled from the spec: the EntryGroup of the data model, declared in server.h: the
"ordered set of member entries" and the "aggregate state"; `check_pending` records a
recomputation asked for "on the next scheduling tick". -/
structure AvahiSEntryGroup where
  entries : List AvahiEntry
  state : AvahiEntryGroupState
  check_pending : Bool
deriving DecidableEq, Repr

/-- Modelled from the spec: the creation of an Announcement in announce.c. "Create(entry,
interface): state=Probing, iteration=0, delay=0; [...] schedule first step immediately.
If the entry is flagged as not requiring probing [...], skip Probing and Waiting and enter
Announcing directly." -/
def new_announcement (e : AvahiEntry) (i : Nat) : AvahiAnnouncement :=
  { interface := i, entry := e.id, time_event := some 0,
    state := if e.no_probe then AVAHI_ANNOUNCING else AVAHI_PROBING,
    n_iteration := 0, sec_delay := 0 }

/-- Modelled from the spec: the timer callback of an Announcement in announce.c.
"Probing step: [...] For a fixed protocol constant number of probes [...]: increment
iteration, reschedule, stay in Probing. After the final probe with no observed conflict,
transition to Waiting." "Waiting: [...] on expiry, reset iteration and delay to minimums
and transition to Announcing." "Announcing step: [...] increment iteration and double the
delay up to a capped maximum each step; reschedule. After a fixed small number of
repeats, transition to Established and stop self-scheduling". -/
def elapse (p : AnnounceParams) (a : AvahiAnnouncement) : AvahiAnnouncement :=
  match a.state with
  | AVAHI_PROBING =>
    if a.n_iteration + 1 < p.n_probes then
      { a with n_iteration := a.n_iteration + 1, time_event := some p.probe_interval }
    else
      { a with n_iteration := a.n_iteration + 1, state := AVAHI_WAITING,
               time_event := some p.wait_interval }
  | AVAHI_WAITING =>
    { a with state := AVAHI_ANNOUNCING, n_iteration := 0, sec_delay := p.min_delay,
             time_event := some 0 }
  | AVAHI_ANNOUNCING =>
    if a.n_iteration + 1 < p.n_announcements then
      { a with n_iteration := a.n_iteration + 1,
               sec_delay := min (2 * a.sec_delay) p.max_delay,
               time_event := some (min (2 * a.sec_delay) p.max_delay) }
    else
      { a with n_iteration := a.n_iteration + 1, state := AVAHI_ESTABLISHED,
               time_event := none }
  | AVAHI_ESTABLISHED => { a with time_event := none }

/-- Modelled from the spec: `avahi_entry_return_to_initial_state` of announce.c, on one
Announcement: a conflict "forces return to Probing"; the Announcement starts over as a
new one does. -/
def avahi_entry_return_to_initial_state (a : AvahiAnnouncement) : AvahiAnnouncement :=
  { a with state := AVAHI_PROBING, n_iteration := 0, sec_delay := 0, time_event := some 0 }

/-- Modelled from the spec: the events of the state machine of an Announcement, whose
dispatch is in announce.c. What can happen to an Announcement: its timer fires; the
interface sweep visits it;
it is withdrawn (goodbye, with or without a packet); a conflict is notified and it is
cancelled; a conflict returns its entry to the initial state; its interface is lost. -/
inductive AnnouncementEvent where
  | timer
  | sweep
  | goodbye (send_goodbye : Bool)
  | conflict
  | conflict_return
  | interface_lost
deriving DecidableEq, Repr

/-- The events that are a conflict or the loss of the interface. -/
def AnnouncementEvent.conflictOrLoss : AnnouncementEvent → Bool
  | AnnouncementEvent.conflict => true
  | AnnouncementEvent.conflict_return => true
  | AnnouncementEvent.interface_lost => true
  | _ => false

/-- Modelled from the spec: one step of the state machine of an Announcement, whose code
is in announce.c; `none` is the Announcement destroyed. The timer step is `elapse`. The
sweep "creates missing Announcements" and leaves an existing one in its state.
"Goodbye: [...] destroy the Announcement". "Conflict notification [...]: cancel every
Announcement for that entry", or the return to the initial state. The loss of the
interface is a goodbye without packet. -/
def announcement_step (p : AnnounceParams) (a : AvahiAnnouncement) :
    AnnouncementEvent → Option AvahiAnnouncement
  | AnnouncementEvent.timer => some (elapse p a)
  | AnnouncementEvent.sweep => some a
  | AnnouncementEvent.goodbye _ => none
  | AnnouncementEvent.conflict => none
  | AnnouncementEvent.conflict_return => some (avahi_entry_return_to_initial_state a)
  | AnnouncementEvent.interface_lost => none

/-- Every Announcement of every member entry of the group is in state Established. -/
def all_established (g : AvahiSEntryGroup) : Bool :=
  g.entries.all (fun e => e.announcements.all (fun a => a.state = AVAHI_ESTABLISHED))

/-- Modelled from the spec: the recomputation of the aggregate state that
`avahi_s_entry_group_check_probed` of announce.c performs. "Group state is a pure
reduction over member Announcement states: any member not fully registered ⇒ Registering;
[...] all fully Established ⇒ Established." A member that lost a conflict has had its
group marked Collision by the conflict notification; that mark, like Uncommitted and
Failure, is not derived from the Announcements and stays. -/
def recompute_state (g : AvahiSEntryGroup) : AvahiSEntryGroup :=
  match g.state with
  | AVAHI_ENTRY_GROUP_REGISTERING | AVAHI_ENTRY_GROUP_ESTABLISHED =>
    { g with state := if all_established g then AVAHI_ENTRY_GROUP_ESTABLISHED
                      else AVAHI_ENTRY_GROUP_REGISTERING,
             check_pending := false }
  | _ => { g with check_pending := false }

/-- Modelled from the spec: `avahi_s_entry_group_check_probed(g, immediately)` of
announce.c. "CheckProbed(group, immediately): recompute aggregate state from member
Announcements; `immediately` forces a synchronous recomputation [...], otherwise
recomputation happens on the next scheduling tick". -/
def avahi_s_entry_group_check_probed (g : AvahiSEntryGroup) (immediately : Bool) :
    AvahiSEntryGroup :=
  if immediately then recompute_state g else { g with check_pending := true }

/-- Modelled from the spec: the next scheduling tick, which performs the recomputation
a deferred `avahi_s_entry_group_check_probed` asked for. -/
def scheduling_tick (g : AvahiSEntryGroup) : AvahiSEntryGroup :=
  if g.check_pending then recompute_state g else g

/-- Modelled from the spec: the commit of a group, whose code is not among the sources.
"Commit(group): create Announcements for every member on every eligible interface; state
→ Registering." An interface is eligible for an entry of scope "any" or of that scope. -/
def entry_group_commit (interfaces : List Nat) (g : AvahiSEntryGroup) : AvahiSEntryGroup :=
  let eligible := fun (e : AvahiEntry) =>
    interfaces.filter (fun i => e.scope = none ∨ e.scope = some i)
  let announce := fun (e : AvahiEntry) =>
    { e with announcements := (eligible e).map (new_announcement e) }
  { g with entries := g.entries.map announce, state := AVAHI_ENTRY_GROUP_REGISTERING }

/-- A committed group: it has been committed and neither withdrawn after a collision nor
failed, so that its state is Registering or Established. -/
def Committed (g : AvahiSEntryGroup) : Prop :=
  g.state = AVAHI_ENTRY_GROUP_REGISTERING ∨ g.state = AVAHI_ENTRY_GROUP_ESTABLISHED

/-- Modelled from the spec: the timer primitive, an external collaborator, fires the
timer of the Announcement of entry `eid` on interface `iid`, which takes its step. -/
def group_timer (p : AnnounceParams) (g : AvahiSEntryGroup) (eid iid : Nat) :
    AvahiSEntryGroup :=
  { g with entries := g.entries.map (fun e =>
      if e.id = eid then
        { e with announcements := e.announcements.map (fun a =>
            if a.interface = iid then elapse p a else a) }
      else e) }

/-- The timers of the Announcements fire in the order `order` (pairs of an entry and an
interface); after each step the state of the group is recomputed. -/
def run_timers (p : AnnounceParams) (g : AvahiSEntryGroup) (order : List (Nat × Nat)) :
    AvahiSEntryGroup :=
  order.foldl (fun g ev => avahi_s_entry_group_check_probed (group_timer p g ev.1 ev.2) true) g

/-- The timers pending in a group: those of the Announcements of its members. -/
def pending_timers (g : AvahiSEntryGroup) : List Nat :=
  g.entries.flatMap (fun e => e.announcements.filterMap (fun a => a.time_event))

/-- Modelled from the spec: the conflict notification on the member `eid` of a group,
whose code is in announce.c and server.c. "Conflict notification [...]: cancel every
Announcement for that entry across all interfaces; mark the owning group Collision [...];
return the entry to its pre-announcement state; schedule no automatic retry". "Collision
propagation: a conflict on any one member invalidates the entire group [...] — a
multi-record service must be withdrawn as a unit": the Announcements of all the members
are cancelled. A conflict on an entry that is no member leaves the group as it is. -/
def notify_conflict (g : AvahiSEntryGroup) (eid : Nat) : AvahiSEntryGroup :=
  if g.entries.any (fun e => e.id = eid) then
    { g with entries := g.entries.map (fun e => { e with announcements := [] }),
             state := AVAHI_ENTRY_GROUP_COLLISION }
  else g

/-- The constants of the scenarios: three probes and three announcements. -/
def scenarioParams : AnnounceParams :=
  { n_probes := 3, probe_interval := 250, wait_interval := 250, n_announcements := 3,
    min_delay := 1, max_delay := 8 }

/-- The group of the scenario of the specification: the single entry `1`, eligible on any
interface, committed on the interfaces `1` and `2`. -/
def scenarioGroup : AvahiSEntryGroup :=
  entry_group_commit [1, 2]
    { entries := [{ id := 1, scope := none, no_probe := false, announcements := [] }],
      state := AVAHI_ENTRY_GROUP_UNCOMMITED, check_pending := false }

/-- An order of completion for the scenario: the seven steps of the Announcement on
interface `2` are interleaved with the seven steps of the one on interface `1`. -/
def scenarioOrder : List (Nat × Nat) :=
  [(1, 2), (1, 1), (1, 1), (1, 2), (1, 2), (1, 1), (1, 2), (1, 1), (1, 1), (1, 1),
   (1, 2), (1, 2), (1, 1), (1, 2)]

/-- A group of three entries, each with Announcements on two interfaces, in various
states. -/
def threeEntryGroup : AvahiSEntryGroup :=
  { entries :=
      [{ id := 1, scope := none, no_probe := false,
         announcements :=
           [{ interface := 1, entry := 1, time_event := some 250, state := AVAHI_PROBING,
              n_iteration := 2, sec_delay := 0 },
            { interface := 2, entry := 1, time_event := some 250, state := AVAHI_WAITING,
              n_iteration := 3, sec_delay := 0 }] },
       { id := 2, scope := none, no_probe := false,
         announcements :=
           [{ interface := 1, entry := 2, time_event := some 2, state := AVAHI_ANNOUNCING,
              n_iteration := 1, sec_delay := 2 },
            { interface := 2, entry := 2, time_event := none, state := AVAHI_ESTABLISHED,
              n_iteration := 3, sec_delay := 4 }] },
       { id := 3, scope := some 1, no_probe := true,
         announcements :=
           [{ interface := 1, entry := 3, time_event := none, state := AVAHI_ESTABLISHED,
              n_iteration := 3, sec_delay := 4 }] }],
    state := AVAHI_ENTRY_GROUP_REGISTERING, check_pending := false }

/-! ## Lemmas on the C string functions -/

theorem drop_strspn (s accept : List Char) :
    s.drop (strspn s accept) = s.dropWhile (fun c => accept.contains c) := by
  induction s with
  | nil => rfl
  | cons c cs ih =>
    by_cases h : c ∈ accept
    · simpa [strspn, h] using ih
    · simp [strspn, h]

theorem take_strcspn (s reject : List Char) :
    s.take (strcspn s reject) = s.takeWhile (fun c => !reject.contains c) := by
  induction s with
  | nil => rfl
  | cons c cs ih =>
    by_cases h : c ∈ reject
    · simp [strcspn, h]
    · simpa [strcspn, h] using ih

theorem drop_strcspn (s reject : List Char) :
    s.drop (strcspn s reject) = s.dropWhile (fun c => !reject.contains c) := by
  induction s with
  | nil => rfl
  | cons c cs ih =>
    by_cases h : c ∈ reject
    · simp [strcspn, h]
    · simpa [strcspn, h] using ih

theorem cstr_of_no_nul (s : List Char) (h : '\x00' ∉ s) : cstr s = s := by
  unfold cstr
  rw [List.takeWhile_eq_self_iff]
  intro x hx
  have : x ≠ '\x00' := fun e => h (e ▸ hx)
  simpa using this

/-! ## Lemmas on `fgets` -/

theorem fgets_read_line (n : Nat) (l rest : List Char) (hl : '\n' ∉ l) (hn : l.length < n) :
    fgets_read n (l ++ '\n' :: rest) = (l ++ ['\n'], rest, false) := by
  induction l generalizing n with
  | nil =>
    obtain ⟨m, rfl⟩ : ∃ m, n = m + 1 := ⟨n - 1, by simp at hn; omega⟩
    simp [fgets_read]
  | cons c cs ih =>
    obtain ⟨m, rfl⟩ : ∃ m, n = m + 1 := ⟨n - 1, by simp at hn; omega⟩
    have hc : c ≠ '\n' := fun e => hl (by simp [e])
    have hcs : '\n' ∉ cs := fun e => hl (by simp [e])
    simp at hn
    simp [fgets_read, hc, ih m hcs (by omega)]

theorem fgets_read_last (n : Nat) (l : List Char) (hl : '\n' ∉ l) (hn : l.length ≤ n) :
    ∃ e, fgets_read n l = (l, [], e) := by
  induction l generalizing n with
  | nil => cases n <;> simp [fgets_read]
  | cons c cs ih =>
    obtain ⟨m, rfl⟩ : ∃ m, n = m + 1 := ⟨n - 1, by simp at hn; omega⟩
    have hc : c ≠ '\n' := fun e => hl (by simp [e])
    have hcs : '\n' ∉ cs := fun e => hl (by simp [e])
    simp at hn
    obtain ⟨e, he⟩ := ih m hcs hn
    exact ⟨e, by simp [fgets_read, hc, he]⟩

/-- Reading a line that fits in the buffer: `fgets` hands the whole line over and
leaves the stream at the start of what follows. -/
theorem fgets_file_line (f : FILE) (raw rest : List Char) (hline : FileLine raw rest)
    (hfit : raw.length ≤ 255) (hdata : f.data = raw ++ rest) :
    ∃ f', fgets 256 f = (some raw, f') ∧ f'.data = rest := by
  rcases hline.2 with ⟨l, rfl, hl⟩ | ⟨hne, hl, rfl⟩
  · have hr : fgets_read 255 (l ++ '\n' :: rest) = (l ++ ['\n'], rest, false) :=
      fgets_read_line 255 l rest hl (by simp at hfit; omega)
    refine ⟨{ data := rest, eof := f.eof || false }, ?_, rfl⟩
    simp [fgets, hdata, hr]
  · obtain ⟨e, he⟩ := fgets_read_last 255 raw hl hfit
    refine ⟨{ data := [], eof := f.eof || e }, ?_, rfl⟩
    simp [fgets, hdata, he, hne]

/-! ## Lemmas on `words` -/

theorem words_nil : words [] = [] := by
  simp [words]

theorem words_cons_blank (b : Char) (r : List Char) (hb : blank b = true) :
    words (b :: r) = words r := by
  simp [words, List.splitOnP_cons, hb]

theorem words_dropWhile_blank (s : List Char) : words (s.dropWhile blank) = words s := by
  induction s with
  | nil => rfl
  | cons c cs ih =>
    by_cases h : blank c = true
    · rw [List.dropWhile_cons_of_pos h, ih, words_cons_blank c cs h]
    · rw [List.dropWhile_cons_of_neg h]

/-- A run of non-blank bytes followed by nothing or by a blank is the first token. -/
theorem words_token_append (t r : List Char) (ht : ∀ c ∈ t, blank c = false) (hne : t ≠ [])
    (hr : r = [] ∨ ∃ b r', r = b :: r' ∧ blank b = true) :
    words (t ++ r) = t :: words r := by
  rcases hr with rfl | ⟨b, r', rfl, hb⟩
  · have h1 : t.splitOnP blank = [t] :=
      List.splitOnP_eq_single blank t (fun x hx => by simp [ht x hx])
    simp [words, h1, hne, List.splitOnP_nil]
  · have h1 : (t ++ b :: r').splitOnP blank = t :: r'.splitOnP blank :=
      List.splitOnP_first blank t (fun x hx => by simp [ht x hx]) b hb r'
    rw [words_cons_blank b r' hb]
    simp [words, h1, hne]

theorem takeWhile_not_blank (s : List Char) :
    ∀ c ∈ s.takeWhile (fun c => !blank c), blank c = false := by
  intro c hc
  have := List.mem_takeWhile_imp hc
  simpa using this

theorem dropWhile_not_blank (s : List Char) :
    s.dropWhile (fun c => !blank c) = [] ∨
      ∃ b r', s.dropWhile (fun c => !blank c) = b :: r' ∧ blank b = true := by
  induction s with
  | nil => exact Or.inl rfl
  | cons c cs ih =>
    by_cases h : blank c = true
    · exact Or.inr ⟨c, cs, by simp [h], h⟩
    · simpa [List.dropWhile_cons, h] using ih

theorem dropWhile_blank_head (s : List Char) :
    s.dropWhile blank = [] ∨ ∃ c r, s.dropWhile blank = c :: r ∧ blank c = false := by
  induction s with
  | nil => exact Or.inl rfl
  | cons c cs ih =>
    by_cases h : blank c = true
    · simpa [List.dropWhile_cons, h] using ih
    · exact Or.inr ⟨c, cs, by simp [h], by simpa using h⟩

/-- A text that starts with a non-blank byte splits into its first token and the rest. -/
theorem words_head_token (c : Char) (r : List Char) (hc : blank c = false) :
    (c :: r).takeWhile (fun c => !blank c) ≠ [] ∧
    words (c :: r) = (c :: r).takeWhile (fun c => !blank c) ::
      words (((c :: r).dropWhile (fun c => !blank c)).dropWhile blank) := by
  have hne : (c :: r).takeWhile (fun c => !blank c) ≠ [] := by simp [hc]
  refine ⟨hne, ?_⟩
  rw [words_dropWhile_blank]
  conv_lhs => rw [← List.takeWhile_append_dropWhile (fun c => !blank c) (c :: r)]
  exact words_token_append _ _ (takeWhile_not_blank _) hne (dropWhile_not_blank _)

theorem words_eq_nil_iff (s : List Char) : words s = [] ↔ s.dropWhile blank = [] := by
  constructor
  · intro h
    rcases dropWhile_blank_head s with h0 | ⟨c, r, hcr, hc⟩
    · exact h0
    · rw [← words_dropWhile_blank, hcr, (words_head_token c r hc).2] at h
      exact absurd h (by simp)
  · intro h
    rw [← words_dropWhile_blank, h, words_nil]

/-! ## The loop body in terms of `takeWhile` and `dropWhile` -/

theorem lineContent_head (s : List Char) : ((lineContent s).head? = some '#') = False := by
  unfold lineContent
  cases h : List.dropWhile blank s with
  | nil => simp
  | cons c r =>
    by_cases hc : lineEnd c = true
    · simp [hc]
    · have : c ≠ '#' := by
        rintro rfl
        exact hc (by decide)
      simp [hc, this]

/-- The iteration that reads the buffer `buf`, with the string functions replaced by
their meaning on lists. -/
theorem iter_of_fgets (filename : String) (st : LoadState) (buf : List Char) (f' : FILE)
    (h : fgets 256 st.f = (some buf, f')) :
    static_hosts_load_iter filename st =
      if lineContent (cstr buf) = [] then
        (Flow.next, LoadState.mk f' ((st.line + 1) % 2 ^ 32) st.hosts st.log)
      else if (((lineContent (cstr buf)).dropWhile (fun c => !blank c)).dropWhile
          blank).takeWhile (fun c => !blank c) = [] then
        (Flow.stop, LoadState.mk f' ((st.line + 1) % 2 ^ 32) st.hosts
          (st.log ++ [LogMsg.unexpected_eol filename ((st.line + 1) % 2 ^ 32)]))
      else if ((((lineContent (cstr buf)).dropWhile (fun c => !blank c)).dropWhile
          blank).dropWhile (fun c => !blank c)).dropWhile blank ≠ [] then
        (Flow.stop, LoadState.mk f' ((st.line + 1) % 2 ^ 32) st.hosts
          (st.log ++ [LogMsg.junk filename ((st.line + 1) % 2 ^ 32)]))
      else
        (Flow.next, LoadState.mk f' ((st.line + 1) % 2 ^ 32)
          (StaticHost.mk none
            (some ((((lineContent (cstr buf)).dropWhile (fun c => !blank c)).dropWhile
              blank).takeWhile (fun c => !blank c)))
            (some ((lineContent (cstr buf)).takeWhile (fun c => !blank c))) :: st.hosts)
          st.log) := by
  have e1 : ∀ s : List Char, s.drop (strspn s [' ', '\t']) = s.dropWhile blank :=
    fun s => drop_strspn s _
  have e2 : ∀ s : List Char,
      s.take (strcspn s [' ', '\t']) = s.takeWhile (fun c => !blank c) :=
    fun s => take_strcspn s _
  have e3 : ∀ s : List Char,
      s.drop (strcspn s [' ', '\t']) = s.dropWhile (fun c => !blank c) :=
    fun s => drop_strcspn s _
  have e4 : ∀ s : List Char,
      (s.dropWhile blank).take (strcspn (s.dropWhile blank) ['#', '\r', '\n']) =
        lineContent s :=
    fun s => take_strcspn _ _
  have e5 : ∀ s : List Char,
      (s.drop (strspn (s.dropWhile (fun c => !blank c)) [' ', '\t'])).drop
          (strcspn s [' ', '\t']) =
        (s.dropWhile (fun c => !blank c)).dropWhile blank := by
    intro s
    rw [← e1 (s.dropWhile (fun c => !blank c)), ← e3 s, List.drop_drop, List.drop_drop,
      Nat.add_comm]
  unfold static_hosts_load_iter
  simp only [h, avahi_strndup, e1, e2, e3, e4, e5, static_host_new, set_host_ip]
  simp only [lineContent_head, List.head?_eq_none_iff, false_or, ne_eq]

theorem lineContent_cases (x : List Char) :
    lineContent x = [] ∨ ∃ c r, lineContent x = c :: r ∧ blank c = false := by
  unfold lineContent
  rcases dropWhile_blank_head x with h0 | ⟨c, r, hcr, hc⟩
  · left
    simp [h0]
  · rw [hcr]
    by_cases he : lineEnd c = true
    · left
      simp [he]
    · right
      exact ⟨c, r.takeWhile (fun c => !lineEnd c), by simp [he], hc⟩

/-- What an iteration does with the buffer it read, told from the tokens of the
content of the buffer: no token, the line is skipped; one token, `unexpected end of line`;
two tokens, a host is added; more, `Junk on the end of the line`. -/
theorem iter_classify (filename : String) (st : LoadState) (buf : List Char) (f' : FILE)
    (h : fgets 256 st.f = (some buf, f')) :
    static_hosts_load_iter filename st =
      match words (lineContent (cstr buf)) with
      | [] => (Flow.next, LoadState.mk f' ((st.line + 1) % 2 ^ 32) st.hosts st.log)
      | [_] =>
        (Flow.stop, LoadState.mk f' ((st.line + 1) % 2 ^ 32) st.hosts
          (st.log ++ [LogMsg.unexpected_eol filename ((st.line + 1) % 2 ^ 32)]))
      | [ip, host] =>
        (Flow.next, LoadState.mk f' ((st.line + 1) % 2 ^ 32)
          (StaticHost.mk none (some host) (some ip) :: st.hosts) st.log)
      | _ :: _ :: _ :: _ =>
        (Flow.stop, LoadState.mk f' ((st.line + 1) % 2 ^ 32) st.hosts
          (st.log ++ [LogMsg.junk filename ((st.line + 1) % 2 ^ 32)])) := by
  rw [iter_of_fgets filename st buf f' h]
  rcases lineContent_cases (cstr buf) with h0 | ⟨c, r, hcr, hc⟩
  · simp [h0, words_nil]
  · rw [hcr]
    obtain ⟨-, hw1⟩ := words_head_token c r hc
    rw [hw1]
    rcases dropWhile_blank_head ((c :: r).dropWhile (fun c => !blank c)) with
      h3 | ⟨c2, r2, h3, hc2⟩
    · simp [h3, words_nil]
    · rw [h3]
      obtain ⟨hne2, hw2⟩ := words_head_token c2 r2 hc2
      rw [hw2]
      rcases dropWhile_blank_head ((c2 :: r2).dropWhile (fun c => !blank c)) with
        h5 | ⟨c3, r3, h5, hc3⟩
      · simp only [h5, words_nil]
        simp [hc2]
      · rw [h5]
        obtain ⟨-, hw3⟩ := words_head_token c3 r3 hc3
        rw [hw3]
        simp [hc2]

/-! ## From the lines of the file to the buffer -/

theorem cstr_dropWhile_blank (raw : List Char) :
    (cstr raw).dropWhile blank = cstr (raw.dropWhile blank) := by
  induction raw with
  | nil => rfl
  | cons c cs ih =>
    by_cases h0 : c = '\x00'
    · subst h0
      simp [cstr, blank]
    · by_cases hb : blank c = true
      · have e : cstr (c :: cs) = c :: cstr cs := by simp [cstr, h0]
        rw [e, List.dropWhile_cons_of_pos hb, List.dropWhile_cons_of_pos hb, ih]
      · have e : cstr (c :: cs) = c :: cstr cs := by simp [cstr, h0]
        rw [e, List.dropWhile_cons_of_neg hb, List.dropWhile_cons_of_neg hb, e]

theorem cstr_lineEnd_head (x : List Char)
    (hx : x = [] ∨ ∃ c r, x = c :: r ∧ lineEnd c = true) :
    (cstr x).takeWhile (fun c => !lineEnd c) = [] := by
  rcases hx with rfl | ⟨c, r, rfl, hc⟩
  · rfl
  · by_cases h0 : c = '\x00'
    · simp [cstr, h0]
    · simp [cstr, h0, hc]

/-- A blank line or a comment line leaves nothing for the loader to parse. -/
theorem lineContent_blankOrComment (raw : List Char) (h : blankOrComment raw = true) :
    lineContent (cstr raw) = [] := by
  unfold lineContent
  rw [cstr_dropWhile_blank]
  unfold blankOrComment at h
  cases hd : raw.dropWhile blank with
  | nil => rfl
  | cons c r =>
    rw [hd] at h
    exact cstr_lineEnd_head (c :: r) (Or.inr ⟨c, r, rfl, h⟩)

theorem lineContent_ne_nil (raw : List Char) (h : blankOrComment raw = false) :
    lineContent raw ≠ [] := by
  unfold blankOrComment at h
  unfold lineContent
  cases hd : raw.dropWhile blank with
  | nil => simp [hd] at h
  | cons c r =>
    rw [hd] at h
    have hc : lineEnd c = false := h
    simp [hc]

theorem words_blanks_append (ws x : List Char) (hws : ∀ c ∈ ws, blank c = true) :
    words (ws ++ x) = words x := by
  induction ws with
  | nil => rfl
  | cons c cs ih =>
    rw [List.cons_append, words_cons_blank c _ (hws c (by simp)),
      ih (fun d hd => hws d (by simp [hd]))]

theorem blanks_cases (ws : List Char) (hws : ∀ c ∈ ws, blank c = true) :
    ws = [] ∨ ∃ b r', ws = b :: r' ∧ blank b = true := by
  cases ws with
  | nil => exact Or.inl rfl
  | cons b r => exact Or.inr ⟨b, r, rfl, hws b (by simp)⟩

/-- Two tokens, blanks between them and blanks after them: the tokens of the text are
these two. -/
theorem words_two_tokens (t1 ws2 t2 ws3 : List Char)
    (ht1 : t1 ≠ [] ∧ ∀ c ∈ t1, blank c = false)
    (hws2 : ws2 ≠ [] ∧ ∀ c ∈ ws2, blank c = true)
    (ht2 : t2 ≠ [] ∧ ∀ c ∈ t2, blank c = false)
    (hws3 : ∀ c ∈ ws3, blank c = true) :
    words (t1 ++ (ws2 ++ (t2 ++ ws3))) = [t1, t2] := by
  have h2 : ws2 ++ (t2 ++ ws3) = [] ∨
      ∃ b r', ws2 ++ (t2 ++ ws3) = b :: r' ∧ blank b = true := by
    rcases blanks_cases ws2 hws2.2 with h | ⟨b, r', rfl, hb⟩
    · exact absurd h hws2.1
    · exact Or.inr ⟨b, r' ++ (t2 ++ ws3), rfl, hb⟩
  rw [words_token_append t1 _ ht1.2 ht1.1 h2,
    words_blanks_append ws2 _ hws2.2,
    words_token_append t2 ws3 ht2.2 ht2.1 (blanks_cases ws3 hws3),
    ← List.append_nil ws3, words_blanks_append ws3 [] hws3, words_nil]

/-- The content of a line made of two tokens. -/
theorem lineContent_two_tokens (ws1 t1 ws2 t2 ws3 tail : List Char)
    (hws1 : ∀ c ∈ ws1, blank c = true) (ht1 : IsToken t1)
    (hws2 : ∀ c ∈ ws2, blank c = true) (ht2 : IsToken t2)
    (hws3 : ∀ c ∈ ws3, blank c = true)
    (htail : tail = [] ∨ ∃ c r, tail = c :: r ∧ lineEnd c = true) :
    lineContent (ws1 ++ (t1 ++ (ws2 ++ (t2 ++ (ws3 ++ tail))))) =
      t1 ++ (ws2 ++ (t2 ++ ws3)) := by
  have hbe : ∀ c : Char, blank c = true → lineEnd c = false := by
    intro c hc
    have : c = ' ' ∨ c = '\t' := by simpa [blank] using hc
    rcases this with rfl | rfl <;> decide
  obtain ⟨c1, r1, rfl⟩ : ∃ c1 r1, t1 = c1 :: r1 := List.exists_cons_of_ne_nil ht1.1
  have hc1 : blank c1 = false := (ht1.2 c1 (by simp)).1
  have hAe : ∀ c ∈ (c1 :: r1) ++ (ws2 ++ (t2 ++ ws3)), (!lineEnd c) = true := by
    intro c hc
    simp only [List.mem_append] at hc
    rcases hc with h | h | h | h
    · simp [(ht1.2 c h).2]
    · simp [hbe c (hws2 c h)]
    · simp [(ht2.2 c h).2]
    · simp [hbe c (hws3 c h)]
  have htl : tail.takeWhile (fun c => !lineEnd c) = [] := by
    rcases htail with rfl | ⟨c, r, rfl, hc⟩
    · rfl
    · simp [hc]
  unfold lineContent
  rw [List.dropWhile_append_of_pos hws1]
  have e1 : List.dropWhile blank ((c1 :: r1) ++ (ws2 ++ (t2 ++ (ws3 ++ tail)))) =
      ((c1 :: r1) ++ (ws2 ++ (t2 ++ ws3))) ++ tail := by
    simp [hc1]
  rw [e1, List.takeWhile_append_of_pos hAe, htl, List.append_nil]

/-- A third token is there exactly when a byte other than space and tab remains after
the second token. -/
theorem third_token_iff (c : Char) (r : List Char) (hc : blank c = false) :
    3 ≤ (words (c :: r)).length ↔ ∃ x ∈ afterSecondToken (c :: r), blank x = false := by
  have hnil : ∀ t : List Char, words t ≠ [] ↔ ∃ x ∈ t, blank x = false := by
    intro t
    rw [Ne, words_eq_nil_iff, List.dropWhile_eq_nil_iff]
    simp
  obtain ⟨-, hw1⟩ := words_head_token c r hc
  rw [hw1]
  unfold afterSecondToken
  rcases dropWhile_blank_head ((c :: r).dropWhile (fun c => !blank c)) with
    h3 | ⟨c2, r2, h3, hc2⟩
  · simp [h3, words_nil]
  · rw [h3]
    obtain ⟨-, hw2⟩ := words_head_token c2 r2 hc2
    rw [hw2, words_dropWhile_blank, ← hnil]
    cases words ((c2 :: r2).dropWhile (fun c => !blank c)) with
    | nil => simp
    | cons a b => simp

/-- An iteration that ends in `next` is one turn of the loop. -/
theorem loop_of_iter_next (filename : String) (st st' : LoadState) (fuel : Nat)
    (hi : static_hosts_load_iter filename st = (Flow.next, st')) (he : feof st.f = false) :
    static_hosts_load_loop filename (fuel + 1) st = static_hosts_load_loop filename fuel st' := by
  simp [static_hosts_load_loop, he, hi]

/-! ## The claims on `static_hosts_load` -/

/-- C4: a line that fits in the 256-byte buffer and is made of optional blanks, a token
`t1`, at least one blank, a token `t2`, optional blanks, and then the end of the line
or a comment, makes the iteration that reads it add exactly one `StaticHost`, with `ip`
the token `t1`, `host` the token `t2` and `group` unset; nothing is logged, and the loop
that arrives at the line goes on from there with what follows the line. -/
theorem static_hosts_load_adds_host (filename : String) (st : LoadState)
    (ws1 t1 ws2 t2 ws3 tail rest : List Char)
    (hline : FileLine (ws1 ++ t1 ++ ws2 ++ t2 ++ ws3 ++ tail) rest)
    (hfit : (ws1 ++ t1 ++ ws2 ++ t2 ++ ws3 ++ tail).length ≤ 255)
    (hws1 : ∀ c ∈ ws1, blank c = true) (ht1 : IsToken t1)
    (hws2 : ws2 ≠ [] ∧ ∀ c ∈ ws2, blank c = true) (ht2 : IsToken t2)
    (hws3 : ∀ c ∈ ws3, blank c = true)
    (htail : tail = [] ∨ ∃ c r, tail = c :: r ∧ lineEnd c = true)
    (hdata : st.f.data = ws1 ++ t1 ++ ws2 ++ t2 ++ ws3 ++ tail ++ rest) :
    ∃ f', static_hosts_load_iter filename st =
        (Flow.next, LoadState.mk f' ((st.line + 1) % 2 ^ 32)
          (StaticHost.mk none (some t2) (some t1) :: st.hosts) st.log) ∧
      f'.data = rest ∧
      (feof st.f = false → ∀ fuel,
        static_hosts_load_loop filename (fuel + 1) st =
          static_hosts_load_loop filename fuel
            (LoadState.mk f' ((st.line + 1) % 2 ^ 32)
              (StaticHost.mk none (some t2) (some t1) :: st.hosts) st.log)) := by
  obtain ⟨f', hf, hrest⟩ := fgets_file_line st.f _ rest hline hfit hdata
  have hi : static_hosts_load_iter filename st =
      (Flow.next, LoadState.mk f' ((st.line + 1) % 2 ^ 32)
        (StaticHost.mk none (some t2) (some t1) :: st.hosts) st.log) := by
    rw [iter_classify filename st _ f' hf, cstr_of_no_nul _ hline.1]
    have e : ws1 ++ t1 ++ ws2 ++ t2 ++ ws3 ++ tail =
        ws1 ++ (t1 ++ (ws2 ++ (t2 ++ (ws3 ++ tail)))) := by
      simp only [List.append_assoc]
    rw [e, lineContent_two_tokens ws1 t1 ws2 t2 ws3 tail hws1 ht1 hws2.2 ht2 hws3 htail,
      words_two_tokens t1 ws2 t2 ws3 ⟨ht1.1, fun c hc => (ht1.2 c hc).1⟩ hws2
        ⟨ht2.1, fun c hc => (ht2.2 c hc).1⟩ hws3]
  exact ⟨f', hi, hrest, fun he fuel => loop_of_iter_next filename st _ fuel hi he⟩

/-- C4, on the line `192.168.0.1 router.local` of the claim. -/
theorem static_hosts_load_adds_host_witness :
    ∃ f', static_hosts_load_iter "/etc/avahi/hosts"
        (initialState "192.168.0.1 router.local\n".toList [] []) =
        (Flow.next, LoadState.mk f' 1
          [StaticHost.mk none (some "router.local".toList) (some "192.168.0.1".toList)] []) ∧
      f'.data = [] ∧
      (feof (initialState "192.168.0.1 router.local\n".toList [] []).f = false → ∀ fuel,
        static_hosts_load_loop "/etc/avahi/hosts" (fuel + 1)
            (initialState "192.168.0.1 router.local\n".toList [] []) =
          static_hosts_load_loop "/etc/avahi/hosts" fuel
            (LoadState.mk f' 1
              [StaticHost.mk none (some "router.local".toList)
                (some "192.168.0.1".toList)] [])) :=
  static_hosts_load_adds_host "/etc/avahi/hosts"
    (initialState "192.168.0.1 router.local\n".toList [] [])
    [] "192.168.0.1".toList [' '] "router.local".toList [] ['\n'] []
    ⟨by decide, Or.inl ⟨"192.168.0.1 router.local".toList, rfl, by decide⟩⟩
    (by decide) (by decide) ⟨by decide, by decide⟩ ⟨by decide, by decide⟩
    ⟨by decide, by decide⟩ (by decide) (Or.inr ⟨'\n', [], rfl, rfl⟩) rfl

/-- C5, amended: a blank line or a comment line that fits in the 256-byte buffer (at
most 255 bytes with its newline) makes the iteration that reads it add no host and log
nothing, and the loop that arrives at the line goes on from there with the line that
follows. -/
theorem static_hosts_load_skips_line (filename : String) (st : LoadState)
    (raw rest : List Char) (hline : FileLine raw rest) (hfit : raw.length ≤ 255)
    (hbc : blankOrComment raw = true) (hdata : st.f.data = raw ++ rest) :
    ∃ f', static_hosts_load_iter filename st =
        (Flow.next, LoadState.mk f' ((st.line + 1) % 2 ^ 32) st.hosts st.log) ∧
      f'.data = rest ∧
      (feof st.f = false → ∀ fuel,
        static_hosts_load_loop filename (fuel + 1) st =
          static_hosts_load_loop filename fuel
            (LoadState.mk f' ((st.line + 1) % 2 ^ 32) st.hosts st.log)) := by
  obtain ⟨f', hf, hrest⟩ := fgets_file_line st.f raw rest hline hfit hdata
  have hi : static_hosts_load_iter filename st =
      (Flow.next, LoadState.mk f' ((st.line + 1) % 2 ^ 32) st.hosts st.log) := by
    rw [iter_classify filename st raw f' hf, lineContent_blankOrComment raw hbc, words_nil]
  exact ⟨f', hi, hrest, fun he fuel => loop_of_iter_next filename st _ fuel hi he⟩

/-- C5, amended, on a comment line followed by a host line. -/
theorem static_hosts_load_skips_line_witness :
    ∃ f', static_hosts_load_iter "/etc/avahi/hosts"
        (initialState "  # static hosts\n10.0.0.1 a.local\n".toList [] []) =
        (Flow.next, LoadState.mk f' 1 [] []) ∧
      f'.data = "10.0.0.1 a.local\n".toList ∧
      (feof (initialState "  # static hosts\n10.0.0.1 a.local\n".toList [] []).f = false →
        ∀ fuel,
        static_hosts_load_loop "/etc/avahi/hosts" (fuel + 1)
            (initialState "  # static hosts\n10.0.0.1 a.local\n".toList [] []) =
          static_hosts_load_loop "/etc/avahi/hosts" fuel (LoadState.mk f' 1 [] [])) :=
  static_hosts_load_skips_line "/etc/avahi/hosts"
    (initialState "  # static hosts\n10.0.0.1 a.local\n".toList [] [])
    "  # static hosts\n".toList "10.0.0.1 a.local\n".toList
    ⟨by decide, Or.inl ⟨"  # static hosts".toList, rfl, by decide⟩⟩ (by decide) (by decide) rfl

set_option maxRecDepth 100000 in
/-- C5 as stated fails on a comment line longer than the buffer: `longCommentLine` is
one line of the file and begins with `'#'`, yet the iteration that reads it leaves the
stream inside the line, and the load of the file made of this one line adds the host
`evil.local`. -/
theorem static_hosts_load_long_comment :
    FileLine longCommentLine [] ∧ blankOrComment longCommentLine = true ∧
    (static_hosts_load_iter "/etc/avahi/hosts" (initialState longCommentLine [] [])).2.f.data
      = "1.2.3.4 evil.local\n".toList ∧
    static_hosts_load "/etc/avahi" (hostsFile longCommentLine) false [] [] =
      some ([StaticHost.mk none (some "evil.local".toList) (some "1.2.3.4".toList)], []) := by
  refine ⟨⟨?_, Or.inl ⟨'#' :: (List.replicate 254 'x' ++ "1.2.3.4 evil.local".toList),
    ?_, ?_⟩⟩, ?_, ?_, ?_⟩
  · decide
  · rfl
  · decide
  · decide
  · decide
  · decide

/-- C6, amended: for a line that is neither blank nor a comment and fits in the 256-byte
buffer (at most 255 bytes with its newline), with `words (lineContent raw)` the tokens of
its content before any `'#'`, CR or LF: the line is rejected exactly when the tokens are
not two; a single token gives `unexpected end of line`; `Junk on the end of the line` is
reported exactly when a third token follows the second one, that is when a byte other
than space and tab remains after the second token; with two tokens the line is accepted,
whatever spaces and tabs follow the second token. -/
theorem static_hosts_load_rejects_iff (filename : String) (st : LoadState)
    (raw rest : List Char) (hline : FileLine raw rest) (hfit : raw.length ≤ 255)
    (hnb : blankOrComment raw = false) (hdata : st.f.data = raw ++ rest) :
    (Rejected st (static_hosts_load_iter filename st) ↔
      (words (lineContent raw)).length ≠ 2) ∧
    ((words (lineContent raw)).length = 1 →
      (static_hosts_load_iter filename st).1 = Flow.stop ∧
      (static_hosts_load_iter filename st).2.log =
        st.log ++ [LogMsg.unexpected_eol filename ((st.line + 1) % 2 ^ 32)]) ∧
    ((static_hosts_load_iter filename st).2.log =
        st.log ++ [LogMsg.junk filename ((st.line + 1) % 2 ^ 32)] ↔
      3 ≤ (words (lineContent raw)).length) ∧
    ((static_hosts_load_iter filename st).2.log =
        st.log ++ [LogMsg.junk filename ((st.line + 1) % 2 ^ 32)] ↔
      ∃ x ∈ afterSecondToken (lineContent raw), blank x = false) ∧
    (∀ ip host, words (lineContent raw) = [ip, host] →
      Accepted st (static_hosts_load_iter filename st) ip host) ∧
    (∀ t1 ws2 t2 ws3, lineContent raw = t1 ++ ws2 ++ t2 ++ ws3 →
      (t1 ≠ [] ∧ ∀ c ∈ t1, blank c = false) → (ws2 ≠ [] ∧ ∀ c ∈ ws2, blank c = true) →
      (t2 ≠ [] ∧ ∀ c ∈ t2, blank c = false) → (∀ c ∈ ws3, blank c = true) →
      Accepted st (static_hosts_load_iter filename st) t1 t2) := by
  obtain ⟨f', hf, -⟩ := fgets_file_line st.f raw rest hline hfit hdata
  have hcl := iter_classify filename st raw f' hf
  rw [cstr_of_no_nul raw hline.1] at hcl
  have hne : words (lineContent raw) ≠ [] := by
    intro h0
    rcases lineContent_cases raw with h | ⟨c, r, hcr, hc⟩
    · exact lineContent_ne_nil raw hnb h
    · rw [hcr, (words_head_token c r hc).2] at h0
      exact absurd h0 (by simp)
  have key : ∀ ip host, words (lineContent raw) = [ip, host] →
      Accepted st (static_hosts_load_iter filename st) ip host := by
    intro ip host hw
    rw [hw] at hcl
    rw [hcl]
    exact ⟨rfl, rfl, rfl⟩
  have hjunk : (static_hosts_load_iter filename st).2.log =
        st.log ++ [LogMsg.junk filename ((st.line + 1) % 2 ^ 32)] ↔
      3 ≤ (words (lineContent raw)).length := by
    rcases hw : words (lineContent raw) with _ | ⟨a, _ | ⟨b, _ | ⟨c, d⟩⟩⟩
    · exact absurd hw hne
    · rw [hw] at hcl
      simp [hcl]
    · rw [hw] at hcl
      simp [hcl]
    · rw [hw] at hcl
      simp [hcl]
  have hthird : 3 ≤ (words (lineContent raw)).length ↔
      ∃ x ∈ afterSecondToken (lineContent raw), blank x = false := by
    rcases lineContent_cases raw with h | ⟨c, r, hcr, hc⟩
    · exact absurd h (lineContent_ne_nil raw hnb)
    · rw [hcr]
      exact third_token_iff c r hc
  refine ⟨?_, ?_, hjunk, hjunk.trans hthird, key, ?_⟩
  · rcases hw : words (lineContent raw) with _ | ⟨a, _ | ⟨b, _ | ⟨c, d⟩⟩⟩
    · exact absurd hw hne
    · rw [hw] at hcl
      simp [Rejected, hcl]
    · rw [hw] at hcl
      simp [Rejected, hcl]
    · rw [hw] at hcl
      simp [Rejected, hcl]
  · intro h1
    rcases hw : words (lineContent raw) with _ | ⟨a, _ | ⟨b, _ | ⟨c, d⟩⟩⟩
    · exact absurd hw hne
    · rw [hw] at hcl
      simp [hcl]
    · rw [hw] at h1
      simp at h1
    · rw [hw] at h1
      simp at h1
  · intro t1 ws2 t2 ws3 hc ht1 hws2 ht2 hws3
    apply key
    rw [hc, List.append_assoc, List.append_assoc]
    exact words_two_tokens t1 ws2 t2 ws3 ht1 hws2 ht2 hws3

/-- C6, amended, on the line `10.0.0.1 a.local b.local`. -/
theorem static_hosts_load_rejects_iff_witness :
    (Rejected (initialState junkLine [] [])
        (static_hosts_load_iter "/etc/avahi/hosts" (initialState junkLine [] [])) ↔
      (words (lineContent junkLine)).length ≠ 2) ∧
    ((words (lineContent junkLine)).length = 1 →
      (static_hosts_load_iter "/etc/avahi/hosts" (initialState junkLine [] [])).1 =
        Flow.stop ∧
      (static_hosts_load_iter "/etc/avahi/hosts" (initialState junkLine [] [])).2.log =
        (initialState junkLine [] []).log ++ [LogMsg.unexpected_eol "/etc/avahi/hosts"
          (((initialState junkLine [] []).line + 1) % 2 ^ 32)]) ∧
    ((static_hosts_load_iter "/etc/avahi/hosts" (initialState junkLine [] [])).2.log =
        (initialState junkLine [] []).log ++ [LogMsg.junk "/etc/avahi/hosts"
          (((initialState junkLine [] []).line + 1) % 2 ^ 32)] ↔
      3 ≤ (words (lineContent junkLine)).length) ∧
    ((static_hosts_load_iter "/etc/avahi/hosts" (initialState junkLine [] [])).2.log =
        (initialState junkLine [] []).log ++ [LogMsg.junk "/etc/avahi/hosts"
          (((initialState junkLine [] []).line + 1) % 2 ^ 32)] ↔
      ∃ x ∈ afterSecondToken (lineContent junkLine), blank x = false) ∧
    (∀ ip host, words (lineContent junkLine) = [ip, host] →
      Accepted (initialState junkLine [] [])
        (static_hosts_load_iter "/etc/avahi/hosts" (initialState junkLine [] [])) ip host) ∧
    (∀ t1 ws2 t2 ws3, lineContent junkLine = t1 ++ ws2 ++ t2 ++ ws3 →
      (t1 ≠ [] ∧ ∀ c ∈ t1, blank c = false) → (ws2 ≠ [] ∧ ∀ c ∈ ws2, blank c = true) →
      (t2 ≠ [] ∧ ∀ c ∈ t2, blank c = false) → (∀ c ∈ ws3, blank c = true) →
      Accepted (initialState junkLine [] [])
        (static_hosts_load_iter "/etc/avahi/hosts" (initialState junkLine [] [])) t1 t2) :=
  static_hosts_load_rejects_iff "/etc/avahi/hosts" (initialState junkLine [] [])
    junkLine [] ⟨by decide, Or.inl ⟨"10.0.0.1 a.local b.local".toList, rfl, by decide⟩⟩
    (by decide) (by decide) (by simp [initialState])

set_option maxRecDepth 100000 in
/-- C6 as stated fails on a line longer than the buffer: `longTwoTokenLine` is one line
of the file, neither blank nor a comment, and consists of the two tokens `a` and `b`,
yet the loader reports `unexpected end of line` and adds no host. -/
theorem static_hosts_load_long_line :
    FileLine longTwoTokenLine [] ∧
    blankOrComment longTwoTokenLine = false ∧
    words (lineContent longTwoTokenLine) = [['a'], ['b']] ∧
    (static_hosts_load_iter "/etc/avahi/hosts" (initialState longTwoTokenLine [] [])).1 =
      Flow.stop ∧
    static_hosts_load "/etc/avahi" (hostsFile longTwoTokenLine) false [] [] =
      some ([], [LogMsg.unexpected_eol "/etc/avahi/hosts" 1]) := by
  refine ⟨⟨?_, Or.inl ⟨'a' :: (List.replicate 254 ' ' ++ ['b']), ?_, ?_⟩⟩, ?_, ?_, ?_, ?_⟩
  · decide
  · rfl
  · decide
  · decide
  · decide
  · decide
  · decide

/-! ## The loader always returns -/

theorem fgets_read_length (n : Nat) (d : List Char) :
    (fgets_read n d).1.length + (fgets_read n d).2.1.length = d.length := by
  induction n generalizing d with
  | zero => simp [fgets_read]
  | succ n ih =>
    cases d with
    | nil => simp [fgets_read]
    | cons c cs =>
      by_cases hc : c = '\n'
      · simp [fgets_read, hc]
        omega
      · have := ih cs
        simp [fgets_read, hc]
        omega

theorem fgets_some_shrinks (f f' : FILE) (buf : List Char)
    (h : fgets 256 f = (some buf, f')) : f'.data.length < f.data.length := by
  unfold fgets at h
  have hl := fgets_read_length (256 - 1) f.data
  by_cases h0 : (fgets_read (256 - 1) f.data).1 = []
  · simp [h0] at h
  · simp only [h0, if_false, Prod.mk.injEq, Option.some.injEq] at h
    obtain ⟨-, rfl⟩ := h
    have : 0 < (fgets_read (256 - 1) f.data).1.length := List.length_pos.mpr h0
    simp only
    omega

/-- An iteration that goes back to the loop test has consumed at least one byte. -/
theorem iter_next_shrinks (filename : String) (st st' : LoadState)
    (h : static_hosts_load_iter filename st = (Flow.next, st')) :
    st'.f.data.length < st.f.data.length := by
  cases hf : fgets 256 st.f with
  | mk o f' =>
    cases o with
    | none =>
      simp [static_hosts_load_iter, hf] at h
    | some buf =>
      have hs := fgets_some_shrinks st.f f' buf hf
      rw [iter_classify filename st buf f' hf] at h
      have : st'.f = f' := by
        split at h <;> simp at h <;> rw [← h]
      rw [this]
      exact hs

/-- The loop ends within as many iterations as the file has bytes, plus one. -/
theorem static_hosts_load_loop_returns (filename : String) (fuel : Nat) (st : LoadState)
    (h : st.f.data.length < fuel) :
    ∃ st', static_hosts_load_loop filename fuel st = some st' := by
  induction fuel generalizing st with
  | zero => omega
  | succ n ih =>
    unfold static_hosts_load_loop
    by_cases he : feof st.f = true
    · exact ⟨st, by simp [he]⟩
    · simp only [he]
      cases hi : static_hosts_load_iter filename st with
      | mk fl st1 =>
        cases fl with
        | stop => exact ⟨st1, by simp⟩
        | next =>
          have := iter_next_shrinks filename st st1 hi
          exact ih st1 (by omega)

/-- `static_hosts_load` returns on every file system and every content of the file. -/
theorem static_hosts_load_returns (config_dir : String)
    (fopen : String → Except Nat (List Char)) (in_chroot : Bool) (hosts : List StaticHost)
    (log : List LogMsg) :
    ∃ r, static_hosts_load config_dir fopen in_chroot hosts log = some r := by
  unfold static_hosts_load
  simp only []
  cases hf : fopen (if in_chroot = true then "/hosts" else config_dir ++ "/hosts") with
  | error e =>
    by_cases h : e ≠ ENOENT
    · exact ⟨(hosts, log ++ [LogMsg.open_failed e]), by simp [h]⟩
    · exact ⟨(hosts, log), by simp [h]⟩
  | ok content =>
    obtain ⟨st', h⟩ := static_hosts_load_loop_returns
      (if in_chroot = true then "/hosts" else config_dir ++ "/hosts") (content.length + 1)
      { f := { data := content, eof := false }, line := 0, hosts := hosts, log := log }
      (by simp)
    exact ⟨(st'.hosts, st'.log), by simp [h]⟩

/-! ## Loads of whole files -/

/-- The file that holds the line `192.168.0.1 router.local` gives one host. -/
theorem static_hosts_load_router :
    static_hosts_load "/etc/avahi" (hostsFile "192.168.0.1 router.local\n".toList)
        false [] [] =
      some ([StaticHost.mk none (some "router.local".toList) (some "192.168.0.1".toList)],
        []) := by
  decide

/-- Comments, blank lines and trailing blanks are passed over; the hosts are in the
list in the reverse order of the file. -/
theorem static_hosts_load_two_hosts :
    static_hosts_load "/etc/avahi"
        (hostsFile "# hosts\n\n 10.0.0.1\ta.local \t# first\r\n10.0.0.2 b.local".toList)
        true [] [] =
      some ([StaticHost.mk none (some "b.local".toList) (some "10.0.0.2".toList),
             StaticHost.mk none (some "a.local".toList) (some "10.0.0.1".toList)], []) := by
  decide

/-- The loader stops at the first line it rejects: the lines after it are not read. -/
theorem static_hosts_load_stops :
    static_hosts_load "/etc/avahi"
        (hostsFile "10.0.0.1 a.local\nb.local\n10.0.0.3 c.local\n".toList) false [] [] =
      some ([StaticHost.mk none (some "a.local".toList) (some "10.0.0.1".toList)],
        [LogMsg.unexpected_eol "/etc/avahi/hosts" 2]) := by
  decide

/-- A file that cannot be opened gives no host; the failure is logged unless the file
does not exist. -/
theorem static_hosts_load_no_file (hosts : List StaticHost) (log : List LogMsg) :
    static_hosts_load "/etc/avahi" (fun _ => Except.error ENOENT) false hosts log =
      some (hosts, log) ∧
    static_hosts_load "/etc/avahi" (fun _ => Except.error 13) false hosts log =
      some (hosts, log ++ [LogMsg.open_failed 13]) := by
  constructor <;> simp [static_hosts_load, ENOENT]

/-! ## The claims on the announcement engine -/

theorem all_established_iff (g : AvahiSEntryGroup) :
    all_established g = true ↔
      ∀ e ∈ g.entries, ∀ a ∈ e.announcements, a.state = AVAHI_ESTABLISHED := by
  simp [all_established]

theorem recompute_state_entries (g : AvahiSEntryGroup) :
    (recompute_state g).entries = g.entries := by
  unfold recompute_state
  split <;> rfl

theorem recompute_state_committed (g : AvahiSEntryGroup) (hc : Committed g) :
    Committed (recompute_state g) := by
  unfold Committed recompute_state at *
  rcases hc with h | h <;> rw [h] <;> by_cases ha : all_established g = true <;> simp [ha]

theorem recompute_state_established (g : AvahiSEntryGroup) (hc : Committed g) :
    (recompute_state g).state = AVAHI_ENTRY_GROUP_ESTABLISHED ↔ all_established g = true := by
  unfold Committed at hc
  unfold recompute_state
  rcases hc with h | h <;> rw [h] <;> by_cases ha : all_established g = true <;> simp [ha]

theorem run_timers_committed (p : AnnounceParams) (order : List (Nat × Nat))
    (g : AvahiSEntryGroup) (hc : Committed g) : Committed (run_timers p g order) := by
  induction order generalizing g with
  | nil => exact hc
  | cons ev evs ih =>
    simp only [run_timers, List.foldl_cons]
    exact ih _ (recompute_state_committed _ hc)

/-- C1: a step of the state machine never moves an Announcement to an earlier state of
the order Probing, Waiting, Announcing, Established, unless the step is a conflict or the
loss of the interface, which returns the Announcement to Probing or removes it; an
Announcement is removed only by those and by its withdrawal; a timer step keeps the
state, with the iteration counter increased unless the state is Established, or moves to
the next state of the order. -/
theorem announcement_state_forward (p : AnnounceParams) (a : AvahiAnnouncement)
    (ev : AnnouncementEvent) :
    (∀ a', announcement_step p a ev = some a' →
      a.state.toNat ≤ a'.state.toNat ∨
        (ev.conflictOrLoss = true ∧ a'.state = AVAHI_PROBING)) ∧
    (announcement_step p a ev = none →
      ev.conflictOrLoss = true ∨ ∃ b, ev = AnnouncementEvent.goodbye b) ∧
    (ev = AnnouncementEvent.timer →
      (elapse p a).state.toNat = a.state.toNat + 1 ∨
        ((elapse p a).state = a.state ∧
          (a.state = AVAHI_ESTABLISHED ∨ a.n_iteration < (elapse p a).n_iteration))) := by
  refine ⟨?_, ?_, ?_⟩
  · intro a' h
    cases ev with
    | timer =>
      left
      simp only [announcement_step, Option.some.injEq] at h
      subst h
      unfold elapse
      cases hs : a.state <;> simp only [] <;> (try split) <;>
        simp [AvahiAnnouncementState.toNat]
    | sweep =>
      left
      simp only [announcement_step, Option.some.injEq] at h
      subst h
      exact Nat.le_refl _
    | goodbye b => simp [announcement_step] at h
    | conflict => simp [announcement_step] at h
    | conflict_return =>
      right
      simp only [announcement_step, Option.some.injEq] at h
      subst h
      exact ⟨rfl, rfl⟩
    | interface_lost => simp [announcement_step] at h
  · intro h
    cases ev with
    | timer => simp [announcement_step] at h
    | sweep => simp [announcement_step] at h
    | goodbye b => exact Or.inr ⟨b, rfl⟩
    | conflict => exact Or.inl rfl
    | conflict_return => simp [announcement_step] at h
    | interface_lost => exact Or.inl rfl
  · intro _
    unfold elapse
    cases hs : a.state <;> simp only [] <;> try split
    all_goals simp [AvahiAnnouncementState.toNat]

/-- C2: for a committed group and any order in which the timers of its Announcements
fire, the aggregate state that `avahi_s_entry_group_check_probed` computes, at once when
`immediately` is set and on the next scheduling tick otherwise, is Established if and
only if every Announcement of every member entry is in state Established. -/
theorem group_established_iff (p : AnnounceParams) (g : AvahiSEntryGroup)
    (hc : Committed g) (order : List (Nat × Nat)) :
    ((avahi_s_entry_group_check_probed (run_timers p g order) true).state =
        AVAHI_ENTRY_GROUP_ESTABLISHED ↔
      ∀ e ∈ (run_timers p g order).entries, ∀ a ∈ e.announcements,
        a.state = AVAHI_ESTABLISHED) ∧
    ((scheduling_tick (avahi_s_entry_group_check_probed (run_timers p g order) false)).state =
        AVAHI_ENTRY_GROUP_ESTABLISHED ↔
      ∀ e ∈ (run_timers p g order).entries, ∀ a ∈ e.announcements,
        a.state = AVAHI_ESTABLISHED) := by
  have hr := run_timers_committed p order g hc
  constructor
  · rw [← all_established_iff]
    simp only [avahi_s_entry_group_check_probed, if_true]
    exact recompute_state_established _ hr
  · rw [← all_established_iff]
    have hp : Committed { run_timers p g order with check_pending := true } := hr
    have := recompute_state_established _ hp
    simpa [avahi_s_entry_group_check_probed, scheduling_tick] using this

/-- C2 on the scenario of the specification: one entry on two interfaces, whose
Announcements complete in an interleaved order; the group is Established. -/
theorem group_established_iff_witness :
    (avahi_s_entry_group_check_probed
      (run_timers scenarioParams scenarioGroup scenarioOrder) true).state =
        AVAHI_ENTRY_GROUP_ESTABLISHED ∧
    (scheduling_tick (avahi_s_entry_group_check_probed
      (run_timers scenarioParams scenarioGroup scenarioOrder) false)).state =
        AVAHI_ENTRY_GROUP_ESTABLISHED :=
  ⟨(group_established_iff scenarioParams scenarioGroup (Or.inl rfl) scenarioOrder).1.mpr
      (by decide),
   (group_established_iff scenarioParams scenarioGroup (Or.inl rfl) scenarioOrder).2.mpr
      (by decide)⟩

/-- C3: a conflict notified on a member of a group puts the group in state Collision and
cancels the Announcements of all its members, which all stay members; no timer is left
pending, so that no retry is scheduled, and the callback of static-hosts.c, called with
the state Collision, only logs the conflict. -/
theorem conflict_collapses_group (g : AvahiSEntryGroup) (e : AvahiEntry)
    (hmem : e ∈ g.entries) (server_errno : Int) (h : StaticHost) :
    (notify_conflict g e.id).state = AVAHI_ENTRY_GROUP_COLLISION ∧
    (∀ m ∈ (notify_conflict g e.id).entries, m.announcements = []) ∧
    (notify_conflict g e.id).entries.map (fun m => m.id) = g.entries.map (fun m => m.id) ∧
    pending_timers (notify_conflict g e.id) = [] ∧
    entry_group_callback server_errno (notify_conflict g e.id).state h =
      [LogMsg.host_conflict h.host] := by
  have hany : g.entries.any (fun m => m.id = e.id) = true := by
    simp only [List.any_eq_true, decide_eq_true_eq]
    exact ⟨e, hmem, rfl⟩
  have hn : notify_conflict g e.id =
      { g with entries := g.entries.map (fun m => { m with announcements := [] }),
               state := AVAHI_ENTRY_GROUP_COLLISION } := by
    simp [notify_conflict, hany]
  rw [hn]
  refine ⟨rfl, ?_, ?_, ?_, rfl⟩
  · intro m hm
    simp only [List.mem_map] at hm
    obtain ⟨m0, -, rfl⟩ := hm
    rfl
  · simp [List.map_map, Function.comp_def]
  · simp [pending_timers, List.flatMap, List.map_map, Function.comp_def]

/-- C3 on a group of three entries: a conflict on the second entry. -/
theorem conflict_collapses_group_witness :
    (notify_conflict threeEntryGroup 2).state = AVAHI_ENTRY_GROUP_COLLISION ∧
    (∀ m ∈ (notify_conflict threeEntryGroup 2).entries, m.announcements = []) ∧
    (notify_conflict threeEntryGroup 2).entries.map (fun m => m.id) = [1, 2, 3] ∧
    pending_timers (notify_conflict threeEntryGroup 2) = [] ∧
    entry_group_callback 0 (notify_conflict threeEntryGroup 2).state
        (StaticHost.mk (some 7) (some "router.local".toList) (some "192.168.0.1".toList)) =
      [LogMsg.host_conflict (some "router.local".toList)] :=
  conflict_collapses_group threeEntryGroup
    { id := 2, scope := none, no_probe := false,
      announcements :=
        [{ interface := 1, entry := 2, time_event := some 2, state := AVAHI_ANNOUNCING,
           n_iteration := 1, sec_delay := 2 },
         { interface := 2, entry := 2, time_event := none, state := AVAHI_ESTABLISHED,
           n_iteration := 3, sec_delay := 4 }] }
    (by decide) 0
    (StaticHost.mk (some 7) (some "router.local".toList) (some "192.168.0.1".toList))

end Avahi
